import Mathlib

set_option maxHeartbeats 800000

namespace Syncit

/-! Shallow embedding of `syncit.py`: a tool mirroring a remote HTTP directory
listing onto the local filesystem.  Network responses and filesystem state are
supplied by a pure environment; every operation of the script is translated to
a Lean function returning the mutated object together with the observable
effects (requests issued, directories created, files written) and the
exception that escaped, if any. -/

/-- Result of parsing one anchor tag of a listing page: `text` models
`link.text` (the visible text) and `href` models `link.get('href')`. -/
structure Link where
  text : String
  href : String

/-- Response to `session.get(url)`.  `content` models `r.content` (the raw
bytes), and `links` models `BeautifulSoup(r.text).find_all("a")`: the anchors
of the body in document order (empty for non-HTML bodies). -/
structure GetResp where
  status : Nat
  content : List Nat
  links : List Link

/-- Response to `session.head(url)`.  `contentLength` models
`h.headers.get('Content-Length')` parsed by `int(...)`: `none` when the header
is absent (in which case `int(None)` raises `TypeError`). -/
structure HeadResp where
  status : Nat
  contentLength : Option Int

/-- Pure environment supplying the network and filesystem observations made by
the script: `get u`/`headOf u` are the responses to `session.get(u)` /
`session.head(u)`; `pathExists p` models `Path(p).exists()`; `statSize p`
models `Path(p).stat().st_size`; `isDir p` models `Path(p).is_dir()`. -/
structure Env where
  get : String → GetResp
  headOf : String → HeadResp
  pathExists : String → Bool
  statSize : String → Nat
  isDir : String → Bool

/-- One HTTP request issued through the shared session. -/
inductive Req where
  | headReq : String → Req
  | getReq : String → Req

/-- Observable side effects of one call: requests in the order issued,
directories created by `mkdir_p`, and `(path, bytes)` pairs written by
`path.write_bytes`. -/
structure Effects where
  requests : List Req
  mkdirs : List String
  writes : List (String × List Nat)

/-- A node of the mirror tree: `File(url, path, session)` or
`Dir(url, path, ignore, session)`.  `status` is the Python string status
(`"pending"`, `"updating"`, `"updated"`, `"error"`); a `Dir`'s `children`
models the insertion-ordered dict mapping entry text to child node.  The
shared session is kept implicit (it carries no state in the model). -/
inductive Node where
  | file (url path status : String)
  | dir (url path : String) (ignore : List String) (status : String)
      (children : List (String × Node))

/-- URL of a node. -/
def Node.urlOf : Node → String
  | .file u _ _ => u
  | .dir u _ _ _ _ => u

/-- Local path of a node. -/
def Node.pathOf : Node → String
  | .file _ p _ => p
  | .dir _ p _ _ _ => p

/-- Status string of a node. -/
def Node.statusOf : Node → String
  | .file _ _ s => s
  | .dir _ _ _ s _ => s

/-- Children mapping of a node (empty for a `File`). -/
def Node.childrenOf : Node → List (String × Node)
  | .file _ _ _ => []
  | .dir _ _ _ _ c => c

/-- Result of one `update()` call: the node after the call, the effects
performed, and the exception that escaped the call (`none` when it returned
normally). -/
structure UpdResult where
  node : Node
  eff : Effects
  exn : Option String

/-- Lower-case a string, modelling Python's `str.lower()` on ASCII text. -/
def strLower (s : String) : String :=
  ⟨s.data.map Char.toLower⟩

/-- Model of `s.startswith(p)`. -/
def strStarts (p s : String) : Bool :=
  p.data.isPrefixOf s.data

/-- Model of `s.endswith(p)`. -/
def strEnds (p s : String) : Bool :=
  p.data.isSuffixOf s.data

/-- Model of Python's substring containment `needle in hay` on strings,
viewed on their character lists. -/
def containsSub (needle : List Char) : List Char → Bool
  | [] => needle.isEmpty
  | c :: t => needle.isPrefixOf (c :: t) || containsSub needle t

/-- The ignore loop of `Dir.update` (lines 131-137): scan the stored patterns
(`self.ignore`, already lower-cased by `Dir.__init__`) and set `skip` when one
occurs inside `link.text.lower()`. -/
def shouldIgnore (name : String) (ignore : List String) : Bool :=
  ignore.any fun ign => containsSub ign.data (strLower name).data

/-- Model of `urllib.parse.urljoin(base, href)` restricted to the shapes the
listing produces: an absolute `href` stands alone, a relative one is appended
to the base.  No claim depends on the value beyond it being a function of
`(base, href)`. -/
def urljoin (base href : String) : String :=
  if strStarts "http://" href || strStarts "https://" href then href
  else base ++ href

/-- Model of `pathlib`'s `path / name`. -/
def pathJoin (p name : String) : String :=
  p ++ "/" ++ name

/-- Model of `self.children.get(name)`: first binding with the given key. -/
def alistGet (name : String) : List (String × Node) → Option Node
  | [] => none
  | (k, v) :: rest => if k = name then some v else alistGet name rest

/-- Child construction of `Dir.update` (lines 141-146): a trailing `/` in the
entry text selects a `Dir` (inheriting the lowered ignore list), otherwise a
`File`. -/
def mkChild (url path : String) (ign : List String) (l : Link) : Node :=
  if strEnds "/" l.text then
    .dir (urljoin url l.href) (pathJoin path l.text) ign "pending" []
  else
    .file (urljoin url l.href) (pathJoin path l.text) "pending"

/-- The listing loop of `Dir.update` (lines 127-147): anchors whose text
starts with `..` are skipped (`continue`); the first remaining anchor whose
text matches an ignore pattern aborts the whole loop (`break`); otherwise a
missing key is inserted at the end of `children` and an existing key is left
untouched. -/
def processLinks (url path : String) (ign : List String) :
    List (String × Node) → List Link → List (String × Node)
  | children, [] => children
  | children, l :: rest =>
    if strStarts ".." l.text then
      processLinks url path ign children rest
    else if shouldIgnore l.text ign then
      children
    else
      match alistGet l.text children with
      | some _ => processLinks url path ign children rest
      | none =>
          processLinks url path ign (children ++ [(l.text, mkChild url path ign l)]) rest

/-- Concatenation of effect records, in execution order. -/
def effApp (a b : Effects) : Effects :=
  ⟨a.requests ++ b.requests, a.mkdirs ++ b.mkdirs, a.writes ++ b.writes⟩

/-- The child loop of `Dir.update` (lines 149-150): call `upd` on every child
in insertion order; an exception escaping a child aborts the loop, leaving the
later children untouched. -/
def updateChildren (upd : Node → UpdResult) :
    List (String × Node) → List (String × Node) × Effects × Option String
  | [] => ([], ⟨[], [], []⟩, none)
  | (name, c) :: rest =>
    let r := upd c
    match r.exn with
    | some e => ((name, r.node) :: rest, r.eff, some e)
    | none =>
      let r2 := updateChildren upd rest
      ((name, r.node) :: r2.1, effApp r.eff r2.2.1, r2.2.2)

/-- `File.update` (lines 77-93) as a function of its observations: the HEAD
response, `self.path.exists()`, `self.path.stat().st_size`, and the GET
response.  A missing `Content-Length` makes `int(None)` raise `TypeError`,
which escapes the call with the node unchanged; an existing local file of the
advertised size short-circuits before the GET; a non-200 GET records an error;
otherwise the body is written. -/
def File.runUpdate (hd : HeadResp) (pathEx : Bool) (stSize : Nat) (g : GetResp)
    (url path st : String) : UpdResult :=
  match hd.contentLength with
  | none => ⟨.file url path st, ⟨[Req.headReq url], [], []⟩, some "TypeError"⟩
  | some size =>
    if pathEx && ((stSize : Int) == size) then
      ⟨.file url path "updated", ⟨[Req.headReq url], [], []⟩, none⟩
    else if g.status ≠ 200 then
      ⟨.file url path "error", ⟨[Req.headReq url, Req.getReq url], [], []⟩, none⟩
    else
      ⟨.file url path "updated",
        ⟨[Req.headReq url, Req.getReq url], [], [(path, g.content)]⟩, none⟩

/-- Body of `Dir.update` after a successful listing GET (lines 120-152),
parametrised by the recursive updater for children: create the directory if
absent, run the listing loop, then update every child; an exception escaping a
child leaves the status at `"updating"`, otherwise it becomes `"updated"`. -/
def dirUpdateRun (upd : Node → UpdResult) (url path : String) (ign : List String)
    (children : List (String × Node)) (links : List Link) (pathEx : Bool) : UpdResult :=
  let mkd : List String := if pathEx then [] else [path]
  let ch1 := processLinks url path ign children links
  let res := updateChildren upd ch1
  let eff : Effects := ⟨Req.getReq url :: res.2.1.requests, mkd ++ res.2.1.mkdirs, res.2.1.writes⟩
  match res.2.2 with
  | some e => ⟨.dir url path ign "updating" res.1, eff, some e⟩
  | none => ⟨.dir url path ign "updated" res.1, eff, none⟩

/-- `update()` of either node kind, with fuel bounding the recursion depth
(Python would hit `RecursionError` on an unbounded descent).  A `Dir` first
GETs its listing (line 113) and stops with status `"error"` on a non-200
response (lines 114-118), leaving its children untouched; otherwise it runs
`dirUpdateRun`. -/
def Node.update : Nat → Env → Node → UpdResult
  | 0, _, n => ⟨n, ⟨[], [], []⟩, some "RecursionError"⟩
  | _ + 1, env, .file url path st =>
      File.runUpdate (env.headOf url) (env.pathExists path) (env.statSize path)
        (env.get url) url path st
  | fuel + 1, env, .dir url path ign st children =>
      if (env.get url).status ≠ 200 then
        ⟨.dir url path ign "error" children, ⟨[Req.getReq url], [], []⟩, none⟩
      else
        dirUpdateRun (Node.update fuel env) url path ign children
          (env.get url).links (env.pathExists path)

/-- One action of the driver loop after the initial pass. -/
inductive DriverStep where
  | rootUpdate : DriverStep
  | sleepStep : Int → DriverStep

/-- Observable outcome of one `sync(...)` call: the exception that escaped
(`ValueError` on invalid arguments), whether `requests.Session()` was
created, the result of the single root `update()` (when reached), and the
driver actions performed after that first pass. -/
structure SyncOutcome where
  exn : Option String
  sessionCreated : Bool
  rootResult : Option UpdResult
  postSteps : List DriverStep

/-- `sync(url, path, loop, ignore)` (lines 50-66): validate the arguments,
create the session, build the root `Dir` (whose constructor lower-cases the
ignore patterns) and run one update pass; with `loop = 0` return, otherwise
sleep `loop` seconds per iteration of the `while True` loop until a
`KeyboardInterrupt` breaks it — `sleeps` is the number of completed sleeps
before the interrupt.  The loop body contains no further call to
`d.update()`. -/
def sync (env : Env) (fuel : Nat) (url path : String) (loop : Int)
    (ignore : List String) (sleeps : Nat) : SyncOutcome :=
  if loop < 0 then ⟨some "ValueError", false, none, []⟩
  else if env.isDir path = false then ⟨some "ValueError", false, none, []⟩
  else
    let r := Node.update fuel env (.dir url path (ignore.map strLower) "pending" [])
    match r.exn with
    | some e => ⟨some e, true, some r, []⟩
    | none =>
      if loop == 0 then ⟨none, true, some r, []⟩
      else ⟨none, true, some r, List.replicate sleeps (DriverStep.sleepStep loop)⟩

/-! Concrete environments used by the witnesses. -/

/-- A healthy test server: the root listing `U/` holds two files around an
ignored entry; every other URL serves a one-byte file, every HEAD advertises
length 1, every path exists with size 1. -/
def envA : Env :=
  { get := fun u =>
      if u = "U/" then
        ⟨200, [], [⟨"a.txt", "a.txt"⟩, ⟨"thumbs.db", "thumbs.db"⟩, ⟨"b.txt", "b.txt"⟩]⟩
      else ⟨200, [0], []⟩,
    headOf := fun _ => ⟨200, some 1⟩,
    pathExists := fun _ => true,
    statSize := fun _ => 1,
    isDir := fun _ => true }

/-- A failing test server: every GET answers 404, no local path exists. -/
def envErr : Env :=
  { get := fun _ => ⟨404, [], []⟩,
    headOf := fun _ => ⟨200, some 1⟩,
    pathExists := fun _ => false,
    statSize := fun _ => 0,
    isDir := fun _ => false }

/-! Shared lemmas. -/

/-- A local file of exactly the advertised size short-circuits `File.update`:
only the HEAD request, no write, status `"updated"`. -/
theorem fileCurrent_eq (hs n : Nat) (g : GetResp) (url path st : String) :
    File.runUpdate ⟨hs, some (n : Int)⟩ true n g url path st =
      ⟨.file url path "updated", ⟨[Req.headReq url], [], []⟩, none⟩ := by
  simp [File.runUpdate]

/-! Claim theorems. -/

/-- C2 counterexample: with the `Content-Length` header absent, `update()`
does not set the status to Error — the `TypeError` raised by `int(None)`
escapes the call and the node keeps its previous status. -/
theorem file_update_missingLength_cex :
    (File.runUpdate ⟨200, none⟩ true 5 ⟨200, [], []⟩ "u" "p" "pending").exn =
        some "TypeError" ∧
      (File.runUpdate ⟨200, none⟩ true 5 ⟨200, [], []⟩ "u" "p" "pending").node.statusOf ≠
        "error" := by
  exact ⟨rfl, by decide⟩

/-- C2 (amended): when the HEAD response lacks `Content-Length`, `int(None)`
raises `TypeError` which escapes `update()`; only the HEAD request was issued,
nothing was written, and the node — its status included — is unchanged. -/
theorem file_update_missingLength_raises (hs : Nat) (pathEx : Bool) (sz : Nat)
    (g : GetResp) (url path st : String) :
    File.runUpdate ⟨hs, none⟩ pathEx sz g url path st =
      ⟨.file url path st, ⟨[Req.headReq url], [], []⟩, some "TypeError"⟩ := rfl

/-- C5: when the local file exists and its size equals the remote
`Content-Length`, `update()` issues no GET, performs no write, and sets the
status to `"updated"` — the whole result is the HEAD request alone. -/
theorem file_update_noop_when_current (hs n : Nat) (g : GetResp) (url path st : String) :
    File.runUpdate ⟨hs, some (n : Int)⟩ true n g url path st =
      ⟨.file url path "updated", ⟨[Req.headReq url], [], []⟩, none⟩ :=
  fileCurrent_eq hs n g url path st

/-- C10: `File.update` never inspects the HEAD status code — two runs
differing only in that code produce identical results; in particular a failed
HEAD whose `Content-Length` matches the local size still yields status
`"updated"` with only the HEAD request issued. -/
theorem file_update_headStatus_noninterference (s1 s2 : Nat) (cl : Option Int)
    (pathEx : Bool) (sz n : Nat) (g : GetResp) (url path st : String) :
    File.runUpdate ⟨s1, cl⟩ pathEx sz g url path st =
        File.runUpdate ⟨s2, cl⟩ pathEx sz g url path st ∧
      (File.runUpdate ⟨404, some (n : Int)⟩ true n g url path st).node.statusOf =
        "updated" ∧
      (File.runUpdate ⟨404, some (n : Int)⟩ true n g url path st).eff.requests =
        [Req.headReq url] :=
  ⟨rfl, by rw [fileCurrent_eq]; rfl, by rw [fileCurrent_eq]⟩

/-- C1: the polling loop of `sync` never performs a second pass — whatever
the arguments, the driver actions after the initial root `update()` contain
no further root update (the `while True` body only sleeps). -/
theorem sync_never_updates_after_first_pass (env : Env) (fuel : Nat)
    (url path : String) (loop : Int) (ignore : List String) (sleeps : Nat) :
    DriverStep.rootUpdate ∉ (sync env fuel url path loop ignore sleeps).postSteps := by
  simp only [sync]
  split
  · simp
  · split
    · simp
    · split
      · simp
      · split
        · simp
        · simp [List.mem_replicate]

/-- C8: a negative loop interval, or a local path that is not an existing
directory, makes `sync` fail with `ValueError` before any session is created,
any request issued, or any pass run. -/
theorem sync_invalid_args (env : Env) (fuel : Nat) (url path : String)
    (loop : Int) (ignore : List String) (sleeps : Nat)
    (h : loop < 0 ∨ env.isDir path = false) :
    sync env fuel url path loop ignore sleeps = ⟨some "ValueError", false, none, []⟩ := by
  rcases h with h | h
  · simp [sync, h]
  · simp [sync, h]

/-- C8 witness: a negative interval fails as stated. -/
theorem sync_invalid_args_witness :
    sync envA 1 "U/" "L" (-1) [] 0 = ⟨some "ValueError", false, none, []⟩ :=
  sync_invalid_args envA 1 "U/" "L" (-1) [] 0 (Or.inl (by decide))

/-- Character-list substring containment agrees with `List.IsInfix`. -/
theorem containsSub_iff (needle hay : List Char) :
    containsSub needle hay = true ↔ needle <:+: hay := by
  induction hay with
  | nil =>
      simp [containsSub, List.isEmpty_iff]
  | cons c t ih =>
      simp [containsSub, ih, List.infix_cons_iff]

/-- C7: with the patterns stored lower-cased (as `Dir.__init__` does), the
ignore decision holds iff some pattern, lower-cased, occurs as a substring
anywhere inside the lower-cased entry name. -/
theorem shouldIgnore_iff_substring (name : String) (patterns : List String) :
    shouldIgnore name (patterns.map strLower) = true ↔
      ∃ p ∈ patterns, (strLower p).data <:+: (strLower name).data := by
  simp [shouldIgnore, containsSub_iff]

/-- C4: a non-200 listing GET makes `Dir.update` record status `"error"` and
return at once: the children are untouched, no directory is created, nothing
is written, and the only request of the call is the listing GET itself. -/
theorem dir_update_listing_error (fuel : Nat) (env : Env) (url path st : String)
    (ign : List String) (children : List (String × Node))
    (h : (env.get url).status ≠ 200) :
    Node.update (fuel + 1) env (.dir url path ign st children) =
      ⟨.dir url path ign "error" children, ⟨[Req.getReq url], [], []⟩, none⟩ := by
  simp only [Node.update]
  rw [if_pos h]

/-- C4 witness: a 404 listing fetch leaves the directory in error state. -/
theorem dir_update_listing_error_witness :
    Node.update 1 envErr (.dir "U/" "L" [] "pending" []) =
      ⟨.dir "U/" "L" [] "error" [], ⟨[Req.getReq "U/"], [], []⟩, none⟩ :=
  dir_update_listing_error 0 envErr "U/" "L" "pending" [] [] (by decide)

/-- A binding present on the left of an append is still found. -/
theorem alistGet_append_some (name : String) (c : Node) (l1 l2 : List (String × Node))
    (h : alistGet name l1 = some c) : alistGet name (l1 ++ l2) = some c := by
  induction l1 with
  | nil => simp [alistGet] at h
  | cons kv rest ih =>
      obtain ⟨k, v⟩ := kv
      simp only [alistGet, List.cons_append] at h ⊢
      by_cases hk : k = name
      · rw [if_pos hk] at h ⊢
        exact h
      · rw [if_neg hk] at h ⊢
        exact ih h

/-- Appending a binding with a different key finds nothing new. -/
theorem alistGet_append_none (name t : String) (x : Node) (l1 : List (String × Node))
    (h : alistGet name l1 = none) (ht : t ≠ name) :
    alistGet name (l1 ++ [(t, x)]) = none := by
  induction l1 with
  | nil => simp [alistGet, ht]
  | cons kv rest ih =>
      obtain ⟨k, v⟩ := kv
      simp only [alistGet, List.cons_append] at h ⊢
      by_cases hk : k = name
      · rw [if_pos hk] at h
        exact absurd h (by simp)
      · rw [if_neg hk] at h ⊢
        exact ih h

/-- The listing loop never rebinds an existing key: a binding present before
`processLinks` is found unchanged afterwards. -/
theorem processLinks_keeps (url path : String) (ign : List String) (links : List Link) :
    ∀ (children : List (String × Node)) (name : String) (c : Node),
      alistGet name children = some c →
        alistGet name (processLinks url path ign children links) = some c := by
  induction links with
  | nil =>
      intro children name c h
      exact h
  | cons l rest ih =>
      intro children name c h
      simp only [processLinks]
      split
      · exact ih children name c h
      · split
        · exact h
        · split
          · exact ih children name c h
          · exact ih _ name c (alistGet_append_some name c children _ h)

/-- The listing loop never creates a binding for a name starting with `..`:
such anchors are skipped by the `continue` before anything else happens. -/
theorem processLinks_no_dotdot (url path : String) (ign : List String) (links : List Link)
    (name : String) (hname : strStarts ".." name = true) :
    ∀ (children : List (String × Node)),
      alistGet name children = none →
        alistGet name (processLinks url path ign children links) = none := by
  induction links with
  | nil =>
      intro children h
      exact h
  | cons l rest ih =>
      intro children h
      simp only [processLinks]
      split
      · exact ih children h
      · rename_i hdd
        split
        · exact h
        · split
          · exact ih children h
          · refine ih _ (alistGet_append_none name l.text _ children h ?_)
            intro he
            exact hdd (he ▸ hname)

/-- The child loop keeps the key set: a binding present before the loop is
still present, holding either the updated node or (past an exception) the
original one. -/
theorem updateChildren_keeps (upd : Node → UpdResult) :
    ∀ (l : List (String × Node)) (name : String) (c : Node),
      alistGet name l = some c →
        ∃ c', alistGet name (updateChildren upd l).1 = some c' ∧
          (c' = (upd c).node ∨ c' = c) := by
  intro l
  induction l with
  | nil =>
      intro name c h
      simp [alistGet] at h
  | cons kv rest ih =>
      intro name c h
      obtain ⟨k, v⟩ := kv
      simp only [alistGet] at h
      simp only [updateChildren]
      rcases hx : (upd v).exn with _ | e
      · simp only
        by_cases hk : k = name
        · rw [if_pos hk] at h
          injection h with hvc
          subst hvc
          exact ⟨(upd v).node, by simp [alistGet, hk], Or.inl rfl⟩
        · rw [if_neg hk] at h
          obtain ⟨c', hc', hor⟩ := ih name c h
          exact ⟨c', by simp [alistGet, hk, hc'], hor⟩
      · simp only
        by_cases hk : k = name
        · rw [if_pos hk] at h
          injection h with hvc
          subst hvc
          exact ⟨(upd v).node, by simp [alistGet, hk], Or.inl rfl⟩
        · rw [if_neg hk] at h
          exact ⟨c, by simp [alistGet, hk, h], Or.inr rfl⟩

/-- The child loop introduces no new key. -/
theorem updateChildren_none (upd : Node → UpdResult) :
    ∀ (l : List (String × Node)) (name : String),
      alistGet name l = none → alistGet name (updateChildren upd l).1 = none := by
  intro l
  induction l with
  | nil =>
      intro name _
      rfl
  | cons kv rest ih =>
      intro name h
      obtain ⟨k, v⟩ := kv
      simp only [alistGet] at h
      simp only [updateChildren]
      by_cases hk : k = name
      · rw [if_pos hk] at h
        exact absurd h (by simp)
      · rw [if_neg hk] at h
        rcases hx : (upd v).exn with _ | e
        · simp only
          simp [alistGet, hk, ih name h]
        · simp only
          simp [alistGet, hk, h]

/-- An `update()` call never changes a node's URL or local path. -/
theorem update_preserves_url_path (fuel : Nat) (env : Env) (n : Node) :
    (Node.update fuel env n).node.urlOf = n.urlOf ∧
      (Node.update fuel env n).node.pathOf = n.pathOf := by
  match fuel, n with
  | 0, n => exact ⟨rfl, rfl⟩
  | _ + 1, .file url path st =>
      simp only [Node.update, File.runUpdate]
      rcases (env.headOf url).contentLength with _ | size
      · exact ⟨rfl, rfl⟩
      · simp only
        split
        · exact ⟨rfl, rfl⟩
        · split
          · exact ⟨rfl, rfl⟩
          · exact ⟨rfl, rfl⟩
  | fuel + 1, .dir url path ign st children =>
      simp only [Node.update]
      split
      · exact ⟨rfl, rfl⟩
      · simp only [dirUpdateRun]
        split
        · exact ⟨rfl, rfl⟩
        · exact ⟨rfl, rfl⟩

/-- C6: `Dir.update` only grows the children mapping — a key present before
the call is still present afterwards, and the node now bound to it is the old
node (possibly updated in place) with its URL and local path unchanged. -/
theorem dir_children_grow_and_reuse (fuel : Nat) (env : Env) (url path st name : String)
    (ign : List String) (children : List (String × Node)) (c : Node)
    (h : alistGet name children = some c) :
    ∃ c', alistGet name
        ((Node.update fuel env (.dir url path ign st children)).node.childrenOf) = some c' ∧
      c'.urlOf = c.urlOf ∧ c'.pathOf = c.pathOf := by
  match fuel with
  | 0 => exact ⟨c, h, rfl, rfl⟩
  | fuel + 1 =>
      simp only [Node.update]
      split
      · exact ⟨c, h, rfl, rfl⟩
      · simp only [dirUpdateRun]
        have h1 := processLinks_keeps url path ign (env.get url).links children name c h
        obtain ⟨c', hc', hor⟩ := updateChildren_keeps (Node.update fuel env) _ name c h1
        have hup : c'.urlOf = c.urlOf ∧ c'.pathOf = c.pathOf := by
          rcases hor with rfl | rfl
          · exact update_preserves_url_path fuel env c
          · exact ⟨rfl, rfl⟩
        split
        · exact ⟨c', hc', hup⟩
        · exact ⟨c', hc', hup⟩

/-- C6 witness: an existing child named `a.txt` survives an update pass with
its URL and path intact. -/
theorem dir_children_grow_and_reuse_witness :
    ∃ c', alistGet "a.txt"
        ((Node.update 1 envA
          (.dir "U/" "L" ["x"] "pending" [("a.txt", .file "u1" "p1" "pending")])).node.childrenOf) =
          some c' ∧
      c'.urlOf = "u1" ∧ c'.pathOf = "p1" :=
  dir_children_grow_and_reuse 1 envA "U/" "L" "pending" "a.txt" ["x"]
    [("a.txt", .file "u1" "p1" "pending")] (.file "u1" "p1" "pending") rfl

/-- C9: an anchor whose text starts with `..` never becomes a child — after
any `Dir.update` its name is still unbound — and the listing loop drops such
an anchor outright, without consulting the ignore filter or short-circuiting
the rest of the listing. -/
theorem dir_dotdot_never_a_child (fuel : Nat) (env : Env) (url path st name : String)
    (ign : List String) (children : List (String × Node))
    (h1 : strStarts ".." name = true) (h2 : alistGet name children = none) :
    alistGet name
        ((Node.update fuel env (.dir url path ign st children)).node.childrenOf) = none ∧
      ∀ (l : Link) (rest : List Link), l.text = name →
        processLinks url path ign children (l :: rest) =
          processLinks url path ign children rest := by
  constructor
  · match fuel with
    | 0 => exact h2
    | fuel + 1 =>
        simp only [Node.update]
        split
        · exact h2
        · simp only [dirUpdateRun]
          have h3 := processLinks_no_dotdot url path ign (env.get url).links name h1 children h2
          have h4 := updateChildren_none (Node.update fuel env) _ name h3
          split
          · exact h4
          · exact h4
  · intro l rest hl
    simp only [processLinks]
    rw [if_pos (hl ▸ h1)]

/-- C9 witness: a parent-directory link `../` never enters the children. -/
theorem dir_dotdot_never_a_child_witness :
    alistGet "../"
        ((Node.update 1 envA (.dir "U/" "L" [] "pending" [])).node.childrenOf) = none ∧
      ∀ (l : Link) (rest : List Link), l.text = "../" →
        processLinks "U/" "L" [] [] (l :: rest) = processLinks "U/" "L" [] [] rest :=
  dir_dotdot_never_a_child 1 envA "U/" "L" "pending" "../" [] [] (by decide) rfl

/-- The listing loop stops at the first non-`..` anchor matching an ignore
pattern: the anchors from it onward contribute nothing. -/
theorem processLinks_short_circuit (url path : String) (ign : List String)
    (pre post : List Link) (e : Link)
    (h1 : strStarts ".." e.text = false) (h2 : shouldIgnore e.text ign = true) :
    ∀ (children : List (String × Node)),
      processLinks url path ign children (pre ++ e :: post) =
        processLinks url path ign children pre := by
  induction pre with
  | nil =>
      intro children
      simp [processLinks, h1, h2]
  | cons l rest ih =>
      intro children
      simp only [List.cons_append, processLinks]
      split
      · exact ih children
      · split
        · rfl
        · split
          · exact ih children
          · exact ih _

/-- C3: when the listing contains a non-`..` anchor matching an ignore
pattern, `Dir.update` behaves exactly as if the listing ended just before
that anchor: neither it nor anything after it is processed, while directory
creation and the update of every current child (pre-existing ones included)
proceed as usual. -/
theorem dir_update_ignore_short_circuit (fuel : Nat) (env : Env) (url path st : String)
    (ign : List String) (children : List (String × Node))
    (pre post : List Link) (e : Link)
    (h1 : strStarts ".." e.text = false) (h2 : shouldIgnore e.text ign = true)
    (h3 : (env.get url).status = 200) (h4 : (env.get url).links = pre ++ e :: post) :
    Node.update (fuel + 1) env (.dir url path ign st children) =
      dirUpdateRun (Node.update fuel env) url path ign children pre
        (env.pathExists path) := by
  simp only [Node.update, h3, h4]
  rw [if_neg (by simp)]
  simp only [dirUpdateRun]
  rw [processLinks_short_circuit url path ign pre post e h1 h2 children]

/-- C3 witness: with the listing `a.txt, thumbs.db, b.txt` and the default
`thumbs.db` ignore pattern, the pass runs as if the listing were `a.txt`
alone. -/
theorem dir_update_ignore_short_circuit_witness :
    Node.update 2 envA (.dir "U/" "L" ["thumbs.db"] "pending" []) =
      dirUpdateRun (Node.update 1 envA) "U/" "L" ["thumbs.db"] []
        [⟨"a.txt", "a.txt"⟩] (envA.pathExists "L") :=
  dir_update_ignore_short_circuit 1 envA "U/" "L" "pending" ["thumbs.db"] []
    [⟨"a.txt", "a.txt"⟩] [⟨"b.txt", "b.txt"⟩] ⟨"thumbs.db", "thumbs.db"⟩
    (by decide) (by decide) rfl rfl

end Syncit
